import Mathlib

/-!
# Verification of the incremental text-reveal reader (`src/app/page.tsx`)

Shallow embedding of the reveal core of the `Tab-to-read` application:
the tokenizer inside `processText`, and the reveal state machine formed by
`processText`, `handleKeyDown`, `resetReader` and `toggleFullscreen`.

Strings are modelled by Lean `String` (a wrapper around `List Char`);
JavaScript's `String.prototype.trim` and `split("\n")` are embedded as
character-list operations (`trimChars`, `splitOnNl`), with whitespace given
by `Char.isWhitespace` (space, tab, CR, LF — the ASCII fragment of the
JS whitespace class).  React's `useState` setters inside one event handler
all read the captured (pre-event) values, so each handler is embedded as a
pure function `ReaderState → ReaderState`.
-/

/-- JS `segment.trim()` on the character list: drop leading and trailing
whitespace. -/
def trimChars (cs : List Char) : List Char :=
  ((cs.dropWhile Char.isWhitespace).reverse.dropWhile Char.isWhitespace).reverse

/-- JS `s.trim()`. -/
def jsTrim (s : String) : String :=
  String.mk (trimChars s.data)

/-- JS `s.split("\n")` on the character list: split into the (possibly empty)
segments between occurrences of `'\n'`.  `splitOnNl [] = [[]]`, matching
`"".split("\n") = [""]`. -/
def splitOnNl : List Char → List (List Char)
  | [] => [[]]
  | c :: rest =>
    if c = '\n' then [] :: splitOnNl rest
    else (c :: (splitOnNl rest).headI) :: (splitOnNl rest).tail

/-- JS `s.split("\n")`. -/
def jsSplitNl (s : String) : List String :=
  (splitOnNl s.data).map String.mk

/-- The tokenizer inside `processText`:
`inputText.split("\n").map(line => line.trim()).filter(line => line.length > 0)`. -/
def tokenize (raw : String) : List String :=
  ((jsSplitNl raw).map jsTrim).filter (fun l => decide (0 < l.length))

/-- The component state of `IncrementalReader` (the `useState` hooks that are
data, not DOM refs). -/
structure ReaderState where
  inputText : String
  displayedText : String
  currentLine : String
  lines : List String
  currentLineIndex : Nat
  activeTab : String
  isRTL : Bool
  isMarkdown : Bool
  isFullscreen : Bool
  isFocusMode : Bool
deriving DecidableEq, Repr

/-- The initial `useState` values of the component. -/
def initialState : ReaderState :=
  { inputText := ""
    displayedText := ""
    currentLine := ""
    lines := []
    currentLineIndex := 0
    activeTab := "input"
    isRTL := true
    isMarkdown := true
    isFullscreen := false
    isFocusMode := true }

/-- The tail of `processText` after tokenizing (the block of `set*` calls):
install a line sequence, reset position and revealed text, highlight line 0
(`textLines[0] || ""`), switch to the reader tab and enter fullscreen.  This
is the spec's `Initialize`. -/
def initializeReader (textLines : List String) (s : ReaderState) : ReaderState :=
  { s with
    lines := textLines
    currentLineIndex := 0
    displayedText := ""
    currentLine := textLines.getD 0 ""
    activeTab := "reader"
    isFullscreen := true }

/-- `processText`: early-return when `!inputText.trim()` (the trimmed input is
the empty string, the only falsy string), otherwise tokenize and initialize. -/
def processText (s : ReaderState) : ReaderState :=
  if jsTrim s.inputText = "" then s
  else initializeReader (tokenize s.inputText) s

/-- `handleKeyDown`: early-return unless the reader tab or fullscreen surface
is active; on `"Tab"` or `" "` advance the reveal position when not yet past
the end (`lines[nextIndex]` is only read under `nextIndex < lines.length`,
embedded with `getD`); on `"Escape"` leave fullscreen. -/
def handleKeyDown (key : String) (s : ReaderState) : ReaderState :=
  if s.activeTab ≠ "reader" ∧ s.isFullscreen = false then s
  else if key = "Tab" ∨ key = " " then
    if s.currentLineIndex < s.lines.length then
      { s with
        displayedText :=
          if s.displayedText ≠ "" then s.displayedText ++ "\n" ++ s.currentLine
          else s.currentLine
        currentLineIndex := s.currentLineIndex + 1
        currentLine :=
          if s.currentLineIndex + 1 < s.lines.length then
            s.lines.getD (s.currentLineIndex + 1) ""
          else "" }
    else s
  else if key = "Escape" then { s with isFullscreen := false }
  else s

/-- The document-wide keydown listener: `Escape` while fullscreen leaves
fullscreen. -/
def handleDocumentKeyDown (key : String) (s : ReaderState) : ReaderState :=
  if key = "Escape" ∧ s.isFullscreen = true then { s with isFullscreen := false }
  else s

/-- `resetReader`: clear revealed text, rewind the position, highlight line 0
of the unchanged line sequence (`lines[0] || ""`). -/
def resetReader (s : ReaderState) : ReaderState :=
  { s with
    displayedText := ""
    currentLineIndex := 0
    currentLine := s.lines.getD 0 "" }

/-- `toggleFullscreen`. -/
def toggleFullscreen (s : ReaderState) : ReaderState :=
  { s with isFullscreen := !s.isFullscreen }

/-- The spec's `Advance`: `handleKeyDown` on the `"Tab"` key (`" "` behaves
identically). -/
def advance (s : ReaderState) : ReaderState :=
  handleKeyDown "Tab" s

/-- One user-visible state transition of the component: typing in the
textarea, switching tabs, flipping one of the three switches, the Process
Text button, a key in a reader surface, the document-level key listener, the
Reset button, or the Fullscreen/close button. -/
inductive Step : ReaderState → ReaderState → Prop where
  | setInput (s : ReaderState) (t : String) : Step s { s with inputText := t }
  | setTab (s : ReaderState) (t : String) : Step s { s with activeTab := t }
  | setRTL (s : ReaderState) (b : Bool) : Step s { s with isRTL := b }
  | setMarkdown (s : ReaderState) (b : Bool) : Step s { s with isMarkdown := b }
  | setFocusMode (s : ReaderState) (b : Bool) : Step s { s with isFocusMode := b }
  | process (s : ReaderState) : Step s (processText s)
  | key (s : ReaderState) (k : String) : Step s (handleKeyDown k s)
  | docKey (s : ReaderState) (k : String) : Step s (handleDocumentKeyDown k s)
  | reset (s : ReaderState) : Step s (resetReader s)
  | fullscreen (s : ReaderState) : Step s (toggleFullscreen s)

/-- States reachable from the initial render by user-visible transitions. -/
inductive Reachable : ReaderState → Prop where
  | init : Reachable initialState
  | step {s s' : ReaderState} : Reachable s → Step s s' → Reachable s'

/-- The spec's join of a line sequence with `"\n"`
(`Revealed Text == join(Line Sequence[0:position])`). -/
def joinLines : List String → String
  | [] => ""
  | [a] => a
  | a :: b :: rest => a ++ "\n" ++ joinLines (b :: rest)

/-- The reveal-state invariant (spec §3): the position is within bounds,
the revealed text is exactly the join of the committed lines, the current
line is the line at the position (empty/absent past the end), and every
line of the sequence is non-empty. -/
def RevealInv (s : ReaderState) : Prop :=
  s.currentLineIndex ≤ s.lines.length ∧
  s.displayedText = joinLines (s.lines.take s.currentLineIndex) ∧
  s.currentLine = s.lines.getD s.currentLineIndex "" ∧
  ∀ l ∈ s.lines, l ≠ ""

/-- Reference tokenizer, following the spec's words (§4.1): "splitting on
line-break characters, trimming each resulting segment, and discarding
segments that become empty after trimming. Order is preserved; no
deduplication."  Stated with the library splitter `List.splitOnP` on the
line-break character, and with the discard condition literally "the segment
became empty". -/
def tokenizeSpec (raw : String) : List String :=
  ((raw.data.splitOnP (· == '\n')).map (fun seg => String.mk (trimChars seg))).filter
    (fun l => decide (l ≠ ""))

example : tokenize "Hello\n\nWorld  \n  " = ["Hello", "World"] := by decide
example : tokenize "" = [] := by decide
example : tokenize "   \n  \n" = [] := by decide

/-! ## Basic facts about strings, `getD`, and `joinLines` -/

lemma str_eq_empty_iff (s : String) : s = "" ↔ s.data = [] :=
  ⟨fun h => h ▸ rfl, fun h => String.ext h⟩

lemma str_append_ne_empty_left (a b : String) (h : a ≠ "") : a ++ b ≠ "" := by
  intro hab
  apply h
  rw [str_eq_empty_iff] at hab ⊢
  rw [String.data_append] at hab
  exact (List.append_eq_nil.mp hab).1

lemma getD_of_length_le {α : Type} (l : List α) (n : Nat) (d : α)
    (h : l.length ≤ n) : l.getD n d = d := by
  induction l generalizing n with
  | nil => simp [List.getD]
  | cons a t ih =>
    cases n with
    | zero => simp at h
    | succ m =>
      rw [List.getD_cons_succ]
      exact ih m (Nat.le_of_succ_le_succ h)

lemma joinLines_cons_of_ne_nil (a : String) (xs : List String) (h : xs ≠ []) :
    joinLines (a :: xs) = a ++ "\n" ++ joinLines xs := by
  cases xs with
  | nil => exact absurd rfl h
  | cons b t => rfl

lemma joinLines_ne_empty (a : String) (xs : List String) (ha : a ≠ "") :
    joinLines (a :: xs) ≠ "" := by
  cases xs with
  | nil => simpa [joinLines] using ha
  | cons b t => exact str_append_ne_empty_left _ _ (str_append_ne_empty_left _ _ ha)

lemma joinLines_append_singleton (xs : List String) (x : String) :
    joinLines (xs ++ [x]) = if xs = [] then x else joinLines xs ++ "\n" ++ x := by
  induction xs with
  | nil => simp [joinLines]
  | cons a t ih =>
    cases t with
    | nil => simp [joinLines]
    | cons b t' =>
      rw [List.cons_append, joinLines_cons_of_ne_nil a _ (by simp), ih]
      rw [if_neg (by simp), if_neg (by simp)]
      rw [joinLines_cons_of_ne_nil a (b :: t') (by simp)]
      simp [String.append_assoc]

lemma take_succ_getD {α : Type} (ls : List α) (p : Nat) (d : α)
    (hp : p < ls.length) : ls.take (p + 1) = ls.take p ++ [ls.getD p d] := by
  induction ls generalizing p with
  | nil => simp at hp
  | cons a t ih =>
    cases p with
    | zero => simp
    | succ q =>
      have hq : q < t.length := Nat.lt_of_succ_lt_succ hp
      simp [List.take_succ_cons, List.getD_cons_succ, ih q hq]

lemma joinLines_take_succ (ls : List String) (p : Nat) (hp : p < ls.length) :
    joinLines (ls.take (p + 1)) =
      if ls.take p = [] then ls.getD p ""
      else joinLines (ls.take p) ++ "\n" ++ ls.getD p "" := by
  rw [take_succ_getD ls p "" hp, joinLines_append_singleton]

/-- The revealed-text update performed by the Tab/Space branch of
`handleKeyDown` extends the join of the committed lines by one line, provided
every line is non-empty (which the tokenizer guarantees). -/
lemma displayed_step_eq (ls : List String) (p : Nat) (hp : p < ls.length)
    (h4 : ∀ l ∈ ls, l ≠ "") :
    (if joinLines (ls.take p) ≠ "" then
        joinLines (ls.take p) ++ "\n" ++ ls.getD p ""
      else ls.getD p "")
      = joinLines (ls.take (p + 1)) := by
  rw [joinLines_take_succ ls p hp]
  by_cases hc : ls.take p = []
  · simp [hc, joinLines]
  · have hne : joinLines (ls.take p) ≠ "" := by
      cases htp : ls.take p with
      | nil => exact absurd htp hc
      | cons a t =>
        have ha : a ≠ "" := h4 a (List.take_subset p ls (htp ▸ List.mem_cons_self a t))
        exact joinLines_ne_empty a t ha
    simp [hc, hne]

lemma currentLine_step_eq (ls : List String) (p : Nat) :
    (if p + 1 < ls.length then ls.getD (p + 1) "" else "")
      = ls.getD (p + 1) "" := by
  by_cases hc : p + 1 < ls.length
  · rw [if_pos hc]
  · rw [if_neg hc, getD_of_length_le ls (p + 1) "" (Nat.le_of_not_lt hc)]

/-! ## The tokenizer produces non-empty lines; invariant preservation -/

lemma tokenize_mem_ne_empty (raw : String) : ∀ l ∈ tokenize raw, l ≠ "" := by
  intro l hl he
  have hp := List.of_mem_filter hl
  rw [he] at hp
  simp at hp

lemma revealInv_initializeReader (tls : List String) (s : ReaderState)
    (h : ∀ l ∈ tls, l ≠ "") : RevealInv (initializeReader tls s) :=
  ⟨Nat.zero_le _, rfl, rfl, h⟩

lemma revealInv_processText (s : ReaderState) (h : RevealInv s) :
    RevealInv (processText s) := by
  unfold processText
  split
  · exact h
  · exact revealInv_initializeReader _ s (tokenize_mem_ne_empty s.inputText)

lemma revealInv_handleKeyDown (k : String) (s : ReaderState) (h : RevealInv s) :
    RevealInv (handleKeyDown k s) := by
  obtain ⟨h1, h2, h3, h4⟩ := h
  unfold handleKeyDown
  split
  · exact ⟨h1, h2, h3, h4⟩
  · split
    · split
      · next hp =>
        refine ⟨hp, ?_, ?_, h4⟩
        · show (if s.displayedText ≠ "" then s.displayedText ++ "\n" ++ s.currentLine
              else s.currentLine)
            = joinLines (s.lines.take (s.currentLineIndex + 1))
          rw [h2, h3]
          exact displayed_step_eq s.lines s.currentLineIndex hp h4
        · show (if s.currentLineIndex + 1 < s.lines.length then
                s.lines.getD (s.currentLineIndex + 1) "" else "")
            = s.lines.getD (s.currentLineIndex + 1) ""
          exact currentLine_step_eq s.lines s.currentLineIndex
      · exact ⟨h1, h2, h3, h4⟩
    · split
      · exact ⟨h1, h2, h3, h4⟩
      · exact ⟨h1, h2, h3, h4⟩

lemma revealInv_resetReader (s : ReaderState) (h : RevealInv s) :
    RevealInv (resetReader s) :=
  ⟨Nat.zero_le _, rfl, rfl, h.2.2.2⟩

lemma revealInv_handleDocumentKeyDown (k : String) (s : ReaderState)
    (h : RevealInv s) : RevealInv (handleDocumentKeyDown k s) := by
  unfold handleDocumentKeyDown
  split
  · exact h
  · exact h

/-- Every user-visible transition preserves the reveal-state invariant. -/
lemma revealInv_step {s s' : ReaderState} (h : RevealInv s) (hs : Step s s') :
    RevealInv s' := by
  cases hs with
  | setInput t => exact h
  | setTab t => exact h
  | setRTL b => exact h
  | setMarkdown b => exact h
  | setFocusMode b => exact h
  | process => exact revealInv_processText s h
  | key k => exact revealInv_handleKeyDown k s h
  | docKey k => exact revealInv_handleDocumentKeyDown k s h
  | reset => exact revealInv_resetReader s h
  | fullscreen => exact h

lemma revealInv_initialState : RevealInv initialState := by
  refine ⟨Nat.le_refl 0, rfl, rfl, ?_⟩
  intro l hl
  simp [initialState] at hl

/-- Every reachable component state satisfies the reveal-state invariant. -/
lemma revealInv_reachable {s : ReaderState} (h : Reachable s) : RevealInv s := by
  induction h with
  | init => exact revealInv_initialState
  | step hr hs ih => exact revealInv_step ih hs

/-! ## Frame lemmas and the behaviour of `Advance` -/

lemma handleKeyDown_lines (k : String) (s : ReaderState) :
    (handleKeyDown k s).lines = s.lines := by
  unfold handleKeyDown
  split
  · rfl
  · split
    · split
      · rfl
      · rfl
    · split
      · rfl
      · rfl

lemma advance_iterate_lines (n : Nat) (s : ReaderState) :
    (advance^[n] s).lines = s.lines := by
  induction n with
  | zero => rfl
  | succ m ih =>
    rw [Function.iterate_succ_apply']
    show (handleKeyDown "Tab" (advance^[m] s)).lines = s.lines
    rw [handleKeyDown_lines, ih]

/-- The Tab/Space branch of `handleKeyDown`, in closed form: under the reveal
invariant fields, it commits the current line and moves the highlight to the
next line. -/
lemma handleKeyDown_advance_eq (k : String) (s : ReaderState)
    (hk : k = "Tab" ∨ k = " ")
    (hg : ¬(s.activeTab ≠ "reader" ∧ s.isFullscreen = false))
    (hp : s.currentLineIndex < s.lines.length)
    (h2 : s.displayedText = joinLines (s.lines.take s.currentLineIndex))
    (h3 : s.currentLine = s.lines.getD s.currentLineIndex "")
    (h4 : ∀ l ∈ s.lines, l ≠ "") :
    handleKeyDown k s =
      { s with
        displayedText := joinLines (s.lines.take (s.currentLineIndex + 1))
        currentLineIndex := s.currentLineIndex + 1
        currentLine := s.lines.getD (s.currentLineIndex + 1) "" } := by
  have e1 : (if s.displayedText ≠ "" then s.displayedText ++ "\n" ++ s.currentLine
        else s.currentLine)
      = joinLines (s.lines.take (s.currentLineIndex + 1)) := by
    rw [h2, h3]
    exact displayed_step_eq s.lines s.currentLineIndex hp h4
  have e2 : (if s.currentLineIndex + 1 < s.lines.length then
        s.lines.getD (s.currentLineIndex + 1) "" else "")
      = s.lines.getD (s.currentLineIndex + 1) "" :=
    currentLine_step_eq s.lines s.currentLineIndex
  unfold handleKeyDown
  rw [if_neg hg, if_pos hk, if_pos hp, e1, e2]

/-- Advancing with the position at or past the end of the sequence leaves the
state unchanged. -/
lemma handleKeyDown_advance_noop (k : String) (s : ReaderState)
    (hp : s.lines.length ≤ s.currentLineIndex) (hk : k = "Tab" ∨ k = " ") :
    handleKeyDown k s = s := by
  unfold handleKeyDown
  by_cases hg : s.activeTab ≠ "reader" ∧ s.isFullscreen = false
  · rw [if_pos hg]
  · rw [if_neg hg, if_pos hk, if_neg (Nat.not_lt.mpr hp)]

/-- Running `Advance` `k ≤ total` times from a fresh `Initialize` reveals
exactly the first `k` lines and highlights line `k`. -/
lemma advance_iterate_initializeReader (ls : List String) (s : ReaderState)
    (h4 : ∀ l ∈ ls, l ≠ "") (k : Nat) (hk : k ≤ ls.length) :
    advance^[k] (initializeReader ls s) =
      { initializeReader ls s with
        displayedText := joinLines (ls.take k)
        currentLineIndex := k
        currentLine := ls.getD k "" } := by
  induction k with
  | zero => rfl
  | succ m ih =>
    have hm : m < ls.length := Nat.lt_of_succ_le hk
    rw [Function.iterate_succ_apply', ih (Nat.le_of_lt hm)]
    show handleKeyDown "Tab" _ = _
    rw [handleKeyDown_advance_eq "Tab" _ (Or.inl rfl) (by simp [initializeReader])
      hm rfl rfl h4]
    rfl

/-! ## Tokenizer facts -/

lemma dropWhile_mem {α : Type} (p : α → Bool) (l : List α) :
    ∀ x ∈ l.dropWhile p, x ∈ l := by
  induction l with
  | nil => intro x hx; exact absurd hx (by simp)
  | cons a t ih =>
    intro x hx
    by_cases hpa : p a = true
    · rw [List.dropWhile_cons_of_pos hpa] at hx
      exact List.mem_cons_of_mem a (ih x hx)
    · rw [List.dropWhile_cons_of_neg hpa] at hx
      exact hx

lemma mem_dropWhile_of_not {α : Type} (p : α → Bool) (l : List α) (x : α)
    (hx : x ∈ l) (hpx : ¬ p x = true) : x ∈ l.dropWhile p := by
  induction l with
  | nil => cases hx
  | cons a t ih =>
    by_cases hpa : p a = true
    · rw [List.dropWhile_cons_of_pos hpa]
      rcases List.mem_cons.mp hx with rfl | hxt
      · exact absurd hpa hpx
      · exact ih hxt
    · rw [List.dropWhile_cons_of_neg hpa]
      exact hx

lemma trimChars_subset (cs : List Char) : ∀ c ∈ trimChars cs, c ∈ cs := by
  intro c hc
  unfold trimChars at hc
  rw [List.mem_reverse] at hc
  have h1 := dropWhile_mem Char.isWhitespace _ c hc
  rw [List.mem_reverse] at h1
  exact dropWhile_mem Char.isWhitespace cs c h1

lemma trimChars_eq_nil_of_ws (cs : List Char)
    (h : ∀ c ∈ cs, c.isWhitespace) : trimChars cs = [] := by
  unfold trimChars
  rw [List.dropWhile_eq_nil_iff.mpr h]
  rfl

lemma exists_not_ws_of_trimChars_ne_nil (cs : List Char)
    (h : trimChars cs ≠ []) : ∃ c ∈ trimChars cs, ¬ c.isWhitespace := by
  by_cases hds : cs.dropWhile Char.isWhitespace = []
  · exact absurd (by unfold trimChars; rw [hds]; rfl) h
  · have hnd := List.head_dropWhile_not Char.isWhitespace cs hds
    refine ⟨(cs.dropWhile Char.isWhitespace).head hds, ?_, by simp [hnd]⟩
    unfold trimChars
    rw [List.mem_reverse]
    exact mem_dropWhile_of_not _ _ _
      (List.mem_reverse.mpr (List.head_mem hds)) (by simp [hnd])

lemma splitOnNl_ne_nil (cs : List Char) : splitOnNl cs ≠ [] := by
  cases cs with
  | nil => simp [splitOnNl]
  | cons c rest =>
    unfold splitOnNl
    split <;> simp

lemma mem_splitOnNl_subset (cs : List Char) :
    ∀ seg ∈ splitOnNl cs, ∀ c ∈ seg, c ∈ cs := by
  induction cs with
  | nil =>
    intro seg hseg c hc
    simp [splitOnNl] at hseg
    subst hseg
    cases hc
  | cons a rest ih =>
    intro seg hseg c hc
    unfold splitOnNl at hseg
    by_cases ha : a = '\n'
    · rw [if_pos ha] at hseg
      rcases List.mem_cons.mp hseg with rfl | hseg'
      · cases hc
      · exact List.mem_cons_of_mem a (ih seg hseg' c hc)
    · rw [if_neg ha] at hseg
      cases hsr : splitOnNl rest with
      | nil => exact absurd hsr (splitOnNl_ne_nil rest)
      | cons s0 ss =>
        rw [hsr] at hseg ih
        simp only [List.headI, List.tail_cons] at hseg
        rcases List.mem_cons.mp hseg with rfl | hseg'
        · rcases List.mem_cons.mp hc with rfl | hc'
          · exact List.mem_cons_self _ _
          · exact List.mem_cons_of_mem a (ih s0 (List.mem_cons_self s0 ss) c hc')
        · exact List.mem_cons_of_mem a (ih seg (List.mem_cons_of_mem s0 hseg') c hc)

lemma splitOnNl_eq_splitOnP (cs : List Char) :
    splitOnNl cs = cs.splitOnP (· == '\n') := by
  induction cs with
  | nil => rfl
  | cons c rest ih =>
    rw [List.splitOnP_cons]
    unfold splitOnNl
    by_cases hc : c = '\n'
    · rw [if_pos hc, if_pos (by simp [hc]), ih]
    · rw [if_neg hc, if_neg (by simp [hc]), ih]
      cases hsp : List.splitOnP (fun x => x == '\n') rest with
      | nil => exact absurd hsp (List.splitOnP_ne_nil _ rest)
      | cons s0 ss => simp [List.headI]

lemma str_length_pos_iff (l : String) : 0 < l.length ↔ l ≠ "" := by
  obtain ⟨d⟩ := l
  rw [Ne, str_eq_empty_iff, String.length_mk]
  exact List.length_pos

/-- **C9**: for every raw input string, the tokenizer's output equals the
reference definition written from the spec's words (`tokenizeSpec`): split
the raw text on the line-break character, trim each resulting segment, and
discard segments that become empty after trimming — order preserved, no
deduplication (both sides are plain `map`/`filter` pipelines, which neither
reorder nor deduplicate). -/
theorem tokenize_refines_spec (raw : String) : tokenize raw = tokenizeSpec raw := by
  unfold tokenize tokenizeSpec jsSplitNl
  rw [← splitOnNl_eq_splitOnP, List.map_map]
  have hmap : List.map (jsTrim ∘ String.mk) (splitOnNl raw.data)
      = List.map (fun seg => String.mk (trimChars seg)) (splitOnNl raw.data) := rfl
  rw [hmap]
  exact List.filter_congr fun x _ => by
    rw [decide_eq_decide]
    exact str_length_pos_iff x

/-! ## The claims -/

/-- **C1**: every operation (Initialize via `processText`, Advance via the
Tab/Space branch of `handleKeyDown`, Reset via `resetReader`) preserves the
state invariant: along every sequence of component transitions,
`0 ≤ position ≤ length lines` and `displayedText` is exactly the join of
`lines[0..position-1]` with `"\n"` (the empty string when the position is 0).
The transition relation `Step` enumerates every state setter the component
invokes, so `displayedText` is never edited except through these
operations. -/
theorem state_invariant_holds (s : ReaderState) (h : Reachable s) :
    s.currentLineIndex ≤ s.lines.length ∧
    s.displayedText = joinLines (s.lines.take s.currentLineIndex) := by
  have hi := revealInv_reachable h
  exact ⟨hi.1, hi.2.1⟩

/-- Witness for C1: the invariant at the concrete reachable state obtained by
typing `"a\nb"`, processing, and advancing once. -/
theorem state_invariant_holds_witness :
    (advance (processText { initialState with inputText := "a\nb" })).currentLineIndex ≤
      (advance (processText { initialState with inputText := "a\nb" })).lines.length ∧
    (advance (processText { initialState with inputText := "a\nb" })).displayedText =
      joinLines
        ((advance (processText { initialState with inputText := "a\nb" })).lines.take
          (advance (processText { initialState with inputText := "a\nb" })).currentLineIndex) :=
  state_invariant_holds _
    (Reachable.step
      (Reachable.step
        (Reachable.step Reachable.init (Step.setInput initialState "a\nb"))
        (Step.process _))
      (Step.key _ "Tab"))

/-- **C2**: in every reachable state whose position is at or past the end of
the line sequence, Advance (Tab or Space) is a safe no-op: the state — in
particular `position`, `displayedText` and `currentLine` — is unchanged (no
array access happens at all in the skipped branch), `currentLine` is already
absent (the empty string), and repeating Advance any number of times has no
further effect. -/
theorem advance_past_end_noop (s : ReaderState) (h : Reachable s)
    (hp : s.lines.length ≤ s.currentLineIndex) :
    handleKeyDown "Tab" s = s ∧ handleKeyDown " " s = s ∧
    s.currentLine = "" ∧ ∀ n : Nat, advance^[n] s = s := by
  have h3 := (revealInv_reachable h).2.2.1
  have hcl : s.currentLine = "" := by
    rw [h3, getD_of_length_le s.lines _ "" hp]
  have htab : handleKeyDown "Tab" s = s :=
    handleKeyDown_advance_noop "Tab" s hp (Or.inl rfl)
  refine ⟨htab, handleKeyDown_advance_noop " " s hp (Or.inr rfl), hcl, ?_⟩
  intro n
  induction n with
  | zero => rfl
  | succ m ih =>
    rw [Function.iterate_succ_apply', ih]
    exact htab

/-- Witness for C2: the state reached by typing `"hi"`, processing, and
advancing once is reachable, sits at the end of its one-line sequence, and
further Advances are no-ops there. -/
theorem advance_past_end_noop_witness :
    handleKeyDown "Tab"
        (handleKeyDown "Tab" (processText { initialState with inputText := "hi" }))
      = handleKeyDown "Tab" (processText { initialState with inputText := "hi" }) ∧
    handleKeyDown " "
        (handleKeyDown "Tab" (processText { initialState with inputText := "hi" }))
      = handleKeyDown "Tab" (processText { initialState with inputText := "hi" }) ∧
    (handleKeyDown "Tab" (processText { initialState with inputText := "hi" })).currentLine
      = "" ∧
    ∀ n : Nat,
      advance^[n] (handleKeyDown "Tab" (processText { initialState with inputText := "hi" }))
        = handleKeyDown "Tab" (processText { initialState with inputText := "hi" }) :=
  advance_past_end_noop _
    (Reachable.step
      (Reachable.step
        (Reachable.step Reachable.init (Step.setInput initialState "hi"))
        (Step.process _))
      (Step.key _ "Tab"))
    (by decide)

/-- **C3**: for every raw input string, the tokenizer returns no element that
is empty or whitespace-only (every returned line is non-empty and contains a
non-whitespace character); and for every raw input with at least one
non-blank line (a split segment whose trim is non-empty), the tokenizer
returns at least one line. -/
theorem tokenize_no_blank_lines (raw : String) :
    (∀ l ∈ tokenize raw, l ≠ "" ∧ ∃ c ∈ l.data, ¬ c.isWhitespace) ∧
    ((∃ seg ∈ jsSplitNl raw, jsTrim seg ≠ "") → 1 ≤ (tokenize raw).length) := by
  constructor
  · intro l hl
    have hne := tokenize_mem_ne_empty raw l hl
    refine ⟨hne, ?_⟩
    have hmem := (List.mem_filter.mp hl).1
    obtain ⟨m, hm, hml⟩ := List.mem_map.mp hmem
    have hdata : l.data = trimChars m.data := by rw [← hml]; rfl
    have hnil : trimChars m.data ≠ [] := by
      rw [← hdata]
      exact fun hd => hne ((str_eq_empty_iff l).mpr hd)
    obtain ⟨c, hc1, hc2⟩ := exists_not_ws_of_trimChars_ne_nil m.data hnil
    exact ⟨c, by rw [hdata]; exact hc1, hc2⟩
  · rintro ⟨seg, hseg, hne⟩
    have hmem : jsTrim seg ∈ (jsSplitNl raw).map jsTrim :=
      List.mem_map_of_mem jsTrim hseg
    have hfil : jsTrim seg ∈ tokenize raw :=
      List.mem_filter.mpr
        ⟨hmem, decide_eq_true ((str_length_pos_iff (jsTrim seg)).mpr hne)⟩
    exact List.length_pos.mpr (List.ne_nil_of_mem hfil)

/-- Witness for C3: the input `" x \n"` has a non-blank segment, and the
tokenizer returns at least one line on it. -/
theorem tokenize_no_blank_lines_witness :
    (∀ l ∈ tokenize " x \n", l ≠ "" ∧ ∃ c ∈ l.data, ¬ c.isWhitespace) ∧
    1 ≤ (tokenize " x \n").length :=
  ⟨(tokenize_no_blank_lines " x \n").1,
   (tokenize_no_blank_lines " x \n").2 (by decide)⟩

/-- **C4**: concrete scenario A.  On the input `"Hello\n\nWorld  \n  "`:
tokenization yields `["Hello", "World"]`; after Initialize (`processText`)
the current line is `"Hello"` and the revealed text empty; after one Advance
the revealed text is `"Hello"` and the current line `"World"`; after a second
Advance the revealed text is `"Hello\nWorld"` and the current line absent;
a third Advance leaves the state unchanged. -/
theorem concrete_scenario_a :
    tokenize "Hello\n\nWorld  \n  " = ["Hello", "World"] ∧
    ((processText { initialState with inputText := "Hello\n\nWorld  \n  " }).currentLine
        = "Hello" ∧
      (processText { initialState with inputText := "Hello\n\nWorld  \n  " }).displayedText
        = "") ∧
    ((advance (processText { initialState with inputText := "Hello\n\nWorld  \n  " })).displayedText
        = "Hello" ∧
      (advance (processText { initialState with inputText := "Hello\n\nWorld  \n  " })).currentLine
        = "World") ∧
    ((advance (advance (processText { initialState with inputText := "Hello\n\nWorld  \n  " }))).displayedText
        = "Hello\nWorld" ∧
      (advance (advance (processText { initialState with inputText := "Hello\n\nWorld  \n  " }))).currentLine
        = "") ∧
    advance (advance (advance (processText { initialState with inputText := "Hello\n\nWorld  \n  " })))
      = advance (advance (processText { initialState with inputText := "Hello\n\nWorld  \n  " })) := by
  decide

/-- **C5**: for every non-empty line sequence (whose elements, per the data
model, are non-empty strings), applying Advance `total` times from a fresh
Initialize yields `displayedText = join(lines, "\n")` and an absent current
line; one further Advance leaves the state — in particular both fields —
unchanged. -/
theorem advance_total_reveals_all (ls : List String) (s : ReaderState)
    (hne : ls ≠ []) (hlines : ∀ l ∈ ls, l ≠ "") :
    (advance^[ls.length] (initializeReader ls s)).displayedText = joinLines ls ∧
    (advance^[ls.length] (initializeReader ls s)).currentLine = "" ∧
    advance (advance^[ls.length] (initializeReader ls s))
      = advance^[ls.length] (initializeReader ls s) := by
  have hit := advance_iterate_initializeReader ls s hlines ls.length (Nat.le_refl _)
  rw [hit]
  refine ⟨?_, ?_, ?_⟩
  · show joinLines (ls.take ls.length) = joinLines ls
    rw [List.take_length]
  · show ls.getD ls.length "" = ""
    exact getD_of_length_le ls ls.length "" (Nat.le_refl _)
  · exact handleKeyDown_advance_noop "Tab" _ (Nat.le_refl _) (Or.inl rfl)

/-- Witness for C5: Advance twice over the two-line sequence `["a", "b"]`
reveals `"a\nb"`, and a third Advance changes nothing. -/
theorem advance_total_reveals_all_witness :
    (advance^[(["a", "b"] : List String).length] (initializeReader ["a", "b"] initialState)).displayedText
        = joinLines ["a", "b"] ∧
    (advance^[(["a", "b"] : List String).length] (initializeReader ["a", "b"] initialState)).currentLine
        = "" ∧
    advance (advance^[(["a", "b"] : List String).length] (initializeReader ["a", "b"] initialState))
      = advance^[(["a", "b"] : List String).length] (initializeReader ["a", "b"] initialState) :=
  advance_total_reveals_all ["a", "b"] initialState (by decide) (by decide)

/-- **C6**: Reset after any number of Advance calls restores position 0,
empty revealed text, and current line `lines[0]` (the empty string standing
for absent when the sequence is empty), while leaving the line sequence
itself untouched — no re-tokenization, no synthesized content. -/
theorem reset_restores_start (s : ReaderState) (n : Nat) :
    (resetReader (advance^[n] s)).currentLineIndex = 0 ∧
    (resetReader (advance^[n] s)).displayedText = "" ∧
    (resetReader (advance^[n] s)).lines = s.lines ∧
    (resetReader (advance^[n] s)).currentLine = s.lines.getD 0 "" := by
  refine ⟨rfl, rfl, ?_, ?_⟩
  · show (advance^[n] s).lines = s.lines
    exact advance_iterate_lines n s
  · show (advance^[n] s).lines.getD 0 "" = s.lines.getD 0 ""
    rw [advance_iterate_lines n s]

/-- **C7**: for raw input that is empty or entirely whitespace, `processText`
leaves the whole state — in particular all reveal state (`lines`, position,
`displayedText`, `currentLine`) and the tab/fullscreen flags — unchanged, so
the component does not transition into reveal mode; and tokenizing such input
yields the empty sequence. -/
theorem process_whitespace_noop (s : ReaderState)
    (h : ∀ c ∈ s.inputText.data, c.isWhitespace) :
    processText s = s ∧ tokenize s.inputText = [] := by
  have htrim : jsTrim s.inputText = "" := by
    unfold jsTrim
    rw [trimChars_eq_nil_of_ws _ h]
  constructor
  · unfold processText
    rw [if_pos htrim]
  · unfold tokenize
    apply List.filter_eq_nil_iff.mpr
    intro l hl
    obtain ⟨m, hm, hml⟩ := List.mem_map.mp hl
    unfold jsSplitNl at hm
    obtain ⟨seg, hsegmem, hsegm⟩ := List.mem_map.mp hm
    have hws : ∀ c ∈ seg, c.isWhitespace := fun c hc =>
      h c (mem_splitOnNl_subset s.inputText.data seg hsegmem c hc)
    have hm0 : jsTrim m = "" := by
      rw [← hsegm]
      unfold jsTrim
      rw [show (String.mk seg).data = seg from rfl, trimChars_eq_nil_of_ws seg hws]
    rw [← hml, hm0]
    simp

/-- Witness for C7: the all-whitespace input `"   \n  \n"` (concrete scenario
B) is left unprocessed and tokenizes to `[]`. -/
theorem process_whitespace_noop_witness :
    processText { initialState with inputText := "   \n  \n" }
      = { initialState with inputText := "   \n  \n" } ∧
    tokenize ({ initialState with inputText := "   \n  \n" } : ReaderState).inputText
      = [] :=
  process_whitespace_noop _ (by decide)

/-- **C8**: toggling the fullscreen flag — the Fullscreen/close button
(`toggleFullscreen`), the Escape branch of `handleKeyDown`, or the
document-level Escape listener — leaves `position` (`currentLineIndex`),
`displayedText`, `currentLine`, and the line sequence unchanged: closing or
opening fullscreen never discards or duplicates reveal progress. -/
theorem fullscreen_toggle_frame (s : ReaderState) :
    ((toggleFullscreen s).currentLineIndex = s.currentLineIndex ∧
      (toggleFullscreen s).displayedText = s.displayedText ∧
      (toggleFullscreen s).currentLine = s.currentLine ∧
      (toggleFullscreen s).lines = s.lines) ∧
    ((handleKeyDown "Escape" s).currentLineIndex = s.currentLineIndex ∧
      (handleKeyDown "Escape" s).displayedText = s.displayedText ∧
      (handleKeyDown "Escape" s).currentLine = s.currentLine ∧
      (handleKeyDown "Escape" s).lines = s.lines) ∧
    ((handleDocumentKeyDown "Escape" s).currentLineIndex = s.currentLineIndex ∧
      (handleDocumentKeyDown "Escape" s).displayedText = s.displayedText ∧
      (handleDocumentKeyDown "Escape" s).currentLine = s.currentLine ∧
      (handleDocumentKeyDown "Escape" s).lines = s.lines) := by
  refine ⟨⟨rfl, rfl, rfl, rfl⟩, ?_, ?_⟩
  · unfold handleKeyDown
    by_cases hg : s.activeTab ≠ "reader" ∧ s.isFullscreen = false
    · rw [if_pos hg]
      exact ⟨rfl, rfl, rfl, rfl⟩
    · rw [if_neg hg, if_neg (by decide : ¬("Escape" = "Tab" ∨ "Escape" = " ")),
        if_pos rfl]
      exact ⟨rfl, rfl, rfl, rfl⟩
  · unfold handleDocumentKeyDown
    split
    · exact ⟨rfl, rfl, rfl, rfl⟩
    · exact ⟨rfl, rfl, rfl, rfl⟩

/-- **C10**: whenever `processText` actually processes (its guard passes:
the trimmed input is non-empty), it not only installs the reveal state but
also sets the active tab to `"reader"` and the fullscreen flag to `true` —
a successful process forcibly enters fullscreen presentation. -/
theorem process_enters_fullscreen (s : ReaderState)
    (h : jsTrim s.inputText ≠ "") :
    (processText s).activeTab = "reader" ∧ (processText s).isFullscreen = true := by
  unfold processText
  rw [if_neg h]
  exact ⟨rfl, rfl⟩

/-- Witness for C10: processing the concrete input `"hi"` lands on the reader
tab in fullscreen. -/
theorem process_enters_fullscreen_witness :
    (processText { initialState with inputText := "hi" }).activeTab = "reader" ∧
    (processText { initialState with inputText := "hi" }).isFullscreen = true :=
  process_enters_fullscreen _ (by decide)
